import Mathlib

/-!
A shallow embedding of `src/utils/passwordGenerator.js` from the
`passwordgenerator` repository, together with theorems checking the
repository's specification against it.

The JavaScript random source (`crypto.getRandomValues` on a `Uint32Array`)
is modelled as a stream of natural numbers `g : Nat → Nat` together with a
cursor `k`; each call to the random engine consumes one value of the
stream.  All theorems quantify over every possible stream, so they hold
for every sequence of values the secure source can produce.
-/

namespace PasswordGen

/-- The fixed `CHAR_POOLS.uppercase` constant of the source. -/
def UPPERCASE : String := "ABCDEFGHIJKLMNOPQRSTUVWXYZ"

/-- The fixed `CHAR_POOLS.lowercase` constant of the source. -/
def LOWERCASE : String := "abcdefghijklmnopqrstuvwxyz"

/-- The fixed `CHAR_POOLS.numbers` constant of the source. -/
def NUMBERS : String := "0123456789"

/-- The fixed `CHAR_POOLS.symbols` constant of the source. -/
def SYMBOLS : String := "!@#$%^&*()_+-=[]\x7b\x7d|;:,.<>?"

/-- `getSecureRandomInt(max)` of the source: a fresh 32-bit value `v`
reduced modulo `max`.  The drawn value is made explicit so theorems can
quantify over it. -/
def getSecureRandomInt (v : Nat) (max : Nat) : Nat := v % max

/-- The random source: an unbounded stream of drawn 32-bit words and a
cursor into it. -/
structure Rng where
  g : Nat → Nat
  k : Nat

/-- Consume one word of the stream and reduce it modulo `max`, as the
source's `getSecureRandomInt` does. -/
def Rng.next (r : Rng) (max : Nat) : Nat × Rng :=
  (getSecureRandomInt (r.g r.k) max, ⟨r.g, r.k + 1⟩)

/-- The destructuring swap `[a[i], a[j]] = [a[j], a[i]]` of the source,
on lists. -/
def listSwap (l : List Char) (i j : Nat) : List Char :=
  (l.set i (l.getD j ' ')).set j (l.getD i ' ')

/-- The Fisher-Yates loop of `secureShuffleArray`: the counter `i` runs
downward; at counter value `i + 1` the source draws `j = rand(i + 2)` and
swaps positions `i + 1` and `j`. -/
def shuffleFrom : Nat → List Char → Rng → List Char × Rng
  | 0, l, r => (l, r)
  | i + 1, l, r =>
    let p := r.next (i + 2)
    shuffleFrom i (listSwap l (i + 1) p.1) p.2

/-- `secureShuffleArray` of the source: copy the input and run the
Fisher-Yates loop from index `length - 1` down to `1`. -/
def secureShuffleArray (l : List Char) (r : Rng) : List Char × Rng :=
  shuffleFrom (l.length - 1) l r

/-- The `options` object of `generatePassword`; `none` models an omitted
field, resolved by the destructuring defaults of the source
(`length = 14`, all four classes `true`). -/
structure GenOptions where
  length : Option Int := none
  uppercase : Option Bool := none
  lowercase : Option Bool := none
  numbers : Option Bool := none
  symbols : Option Bool := none

/-- One `if (class) { pool += ...; requiredChars.push(...) }` block of
`generatePassword`: extend the pool with the class's characters and draw
one required character from that class. -/
def addClass (enabled : Bool) (cls : List Char)
    (st : List Char × List Char × Rng) : List Char × List Char × Rng :=
  if enabled then
    let p := st.2.2.next cls.length
    (st.1 ++ cls, st.2.1 ++ [cls.getD p.1 ' '], p.2)
  else st

/-- The four sequential class blocks of `generatePassword`, in the
source's fixed order: uppercase, lowercase, numbers, symbols.  Returns
the combined pool, the required characters, and the advanced random
state. -/
def buildPoolReq (o : GenOptions) (r0 : Rng) : List Char × List Char × Rng :=
  addClass (o.symbols.getD true) SYMBOLS.data
    (addClass (o.numbers.getD true) NUMBERS.data
      (addClass (o.lowercase.getD true) LOWERCASE.data
        (addClass (o.uppercase.getD true) UPPERCASE.data ([], [], r0))))

/-- The required characters drawn by a `generatePassword` call: one per
enabled class, in canonical order. -/
def requiredChars (o : GenOptions) (r0 : Rng) : List Char :=
  (buildPoolReq o r0).2.1

/-- The fill loop of `generatePassword`: draw `n` characters from the
combined pool, in draw order. -/
def fillChars (pool : List Char) : Nat → Rng → List Char × Rng
  | 0, r => ([], r)
  | n + 1, r =>
    let p := r.next pool.length
    let q := fillChars pool n p.2
    (pool.getD p.1 ' ' :: q.1, q.2)

/-- `generatePassword(options)` of the source: build the pool and the
required characters, return `""` when the pool is empty, otherwise fill
up to the requested length (clamped below at the number of required
characters) and shuffle. -/
def generatePassword (o : GenOptions) (r0 : Rng) : String :=
  let len : Int := o.length.getD 14
  let pr := buildPoolReq o r0
  if pr.1.isEmpty then ""
  else
    let remaining : Nat := (len - (pr.2.1.length : Int)).toNat
    let fl := fillChars pr.1 remaining pr.2.2
    String.mk (secureShuffleArray (pr.2.1 ++ fl.1) fl.2).1

/-- The number of enabled character classes of a configuration, after
applying the destructuring defaults. -/
def enabledCount (o : GenOptions) : Nat :=
  (if o.uppercase.getD true then 1 else 0) +
  (if o.lowercase.getD true then 1 else 0) +
  (if o.numbers.getD true then 1 else 0) +
  (if o.symbols.getD true then 1 else 0)

/-- The union of the enabled classes' pools, in the order the source
concatenates them. -/
def unionPool (o : GenOptions) : List Char :=
  (if o.uppercase.getD true then UPPERCASE.data else []) ++
  ((if o.lowercase.getD true then LOWERCASE.data else []) ++
  ((if o.numbers.getD true then NUMBERS.data else []) ++
  (if o.symbols.getD true then SYMBOLS.data else [])))

/-- The result record of `calculateStrength`. -/
structure StrengthResult where
  score : Nat
  label : String
  color : String
  deriving DecidableEq

/-- The `/[a-z]/` character test of the source. -/
def isLowerChar (c : Char) : Bool := 'a' ≤ c && c ≤ 'z'

/-- The `/[A-Z]/` character test of the source. -/
def isUpperChar (c : Char) : Bool := 'A' ≤ c && c ≤ 'Z'

/-- The `/[0-9]/` character test of the source. -/
def isDigitChar (c : Char) : Bool := '0' ≤ c && c ≤ '9'

/-- The `/[^a-zA-Z0-9]/` character test of the source. -/
def isOtherChar (c : Char) : Bool :=
  !(isLowerChar c || isUpperChar c || isDigitChar c)

/-- One `if (cond) score += pts` statement of `calculateStrength`. -/
def bucket (cond : Prop) [Decidable cond] (pts : Nat) (s : Nat) : Nat :=
  if cond then s + pts else s

/-- The sequential `score += ...` accumulation of `calculateStrength`:
the four length buckets followed by the four character-variety buckets,
each `if (cond) score += n` block applied in the source's order
(innermost application first). -/
def strengthScore (password : String) : Nat :=
  bucket (password.data.any isOtherChar) 10
    (bucket (password.data.any isDigitChar) 10
      (bucket (password.data.any isUpperChar) 15
        (bucket (password.data.any isLowerChar) 15
          (bucket (24 ≤ password.length) 10
            (bucket (16 ≤ password.length) 10
              (bucket (12 ≤ password.length) 15
                (bucket (8 ≤ password.length) 15 0)))))))

/-- `calculateStrength(password)` of the source: short-circuit on the
empty string, otherwise accumulate the score and pick label and color
from it. -/
def calculateStrength (password : String) : StrengthResult :=
  if password.length = 0 then
    { score := 0, label := "None", color := "#9ca3af" }
  else
    let s := strengthScore password
    if 75 ≤ s then { score := s, label := "Strong", color := "#16a34a" }
    else if 50 ≤ s then { score := s, label := "Medium", color := "#ca8a04" }
    else { score := s, label := "Weak", color := "#dc2626" }

/-- The scoring table as the specification states it: eight
independently evaluated buckets whose points are added. -/
def specScore (p : String) : Nat :=
  (if 8 ≤ p.length then 15 else 0) + (if 12 ≤ p.length then 15 else 0) +
  (if 16 ≤ p.length then 10 else 0) + (if 24 ≤ p.length then 10 else 0) +
  (if p.data.any isLowerChar then 15 else 0) +
  (if p.data.any isUpperChar then 15 else 0) +
  (if p.data.any isDigitChar then 10 else 0) +
  (if p.data.any isOtherChar then 10 else 0)

/-- A string other than `""` has a character, hence nonzero length. -/
lemma length_ne_zero_of_ne_empty (p : String) (h : p ≠ "") : p.length ≠ 0 := by
  intro h0
  apply h
  apply String.ext
  have hd : p.data.length = 0 := h0
  simpa using List.length_eq_zero.mp hd

/-- The sequential score accumulation equals the specification's
eight-bucket sum. -/
lemma bucket_eq (c : Prop) [Decidable c] (pts s : Nat) :
    bucket c pts s = s + (if c then pts else 0) := by
  unfold bucket
  split_ifs <;> omega

lemma strengthScore_eq (p : String) : strengthScore p = specScore p := by
  simp only [strengthScore, specScore, bucket_eq]
  split_ifs <;> omega

/-- The sequential score accumulation of `calculateStrength` adds the
same eight buckets as the specification's table. -/
lemma calculateStrength_eq (p : String) (h : p.length ≠ 0) :
    calculateStrength p =
      if 75 ≤ specScore p then ⟨specScore p, "Strong", "#16a34a"⟩
      else if 50 ≤ specScore p then ⟨specScore p, "Medium", "#ca8a04"⟩
      else ⟨specScore p, "Weak", "#dc2626"⟩ := by
  unfold calculateStrength
  rw [if_neg h, strengthScore_eq]

/-- The score field of `calculateStrength` on a nonempty string is the
specification's bucket sum. -/
lemma calculateStrength_score_eq (p : String) (h : p.length ≠ 0) :
    (calculateStrength p).score = specScore p := by
  rw [calculateStrength_eq p h]
  split_ifs <;> rfl

/-- C8: for every positive `max` and every possible 32-bit unsigned
value `v` drawn from the random source, `getSecureRandomInt`, computed
as `v` reduced modulo `max`, returns an integer in `[0, max)`. -/
theorem C8_secure_random_int_in_range (v max : Nat)
    (h32 : v < 2 ^ 32) (hmax : 0 < max) :
    getSecureRandomInt v max < max :=
  Nat.mod_lt v hmax

theorem C8_secure_random_int_in_range_witness :
    (7 : Nat) < 2 ^ 32 ∧ (0 : Nat) < 5 ∧ getSecureRandomInt 7 5 < 5 :=
  ⟨by decide, by decide, C8_secure_random_int_in_range 7 5 (by decide) (by decide)⟩

/-- C5: `calculateStrength` applied to the empty string returns exactly
score `0`, label `"None"` and the neutral gray color token. -/
theorem C5_empty_string_none :
    calculateStrength "" = { score := 0, label := "None", color := "#9ca3af" } := by
  decide

/-- C4: for every nonempty password the numeric score is the sum of the
eight independently evaluated buckets of the table; in particular
`"Aa1!Aa1!Aa1!"` scores 80 with label `"Strong"` and
`"abcdefghijklmnop"` scores 55 with label `"Medium"`. -/
theorem C4_score_is_bucket_sum (p : String) (h : p ≠ "") :
    (calculateStrength p).score = specScore p ∧
    (calculateStrength "Aa1!Aa1!Aa1!").score = 80 ∧
    (calculateStrength "Aa1!Aa1!Aa1!").label = "Strong" ∧
    (calculateStrength "abcdefghijklmnop").score = 55 ∧
    (calculateStrength "abcdefghijklmnop").label = "Medium" :=
  ⟨calculateStrength_score_eq p (length_ne_zero_of_ne_empty p h),
   by decide, by decide, by decide, by decide⟩

theorem C4_score_is_bucket_sum_witness :
    ("x" : String) ≠ "" ∧
    ((calculateStrength "x").score = specScore "x" ∧
     (calculateStrength "Aa1!Aa1!Aa1!").score = 80 ∧
     (calculateStrength "Aa1!Aa1!Aa1!").label = "Strong" ∧
     (calculateStrength "abcdefghijklmnop").score = 55 ∧
     (calculateStrength "abcdefghijklmnop").label = "Medium") :=
  ⟨by decide, C4_score_is_bucket_sum "x" (by decide)⟩

/-- C6 counterexample: the claim's third clause says every nonempty
password with score below 75 is labelled `"Weak"`, but
`"abcdefghijklmnop"` has score 55 (below 75) and is labelled
`"Medium"`. -/
theorem C6_counterexample :
    ("abcdefghijklmnop" : String) ≠ "" ∧
    (calculateStrength "abcdefghijklmnop").score < 75 ∧
    (calculateStrength "abcdefghijklmnop").label ≠ "Weak" := by
  refine ⟨by decide, by decide, by decide⟩

/-- C6 (amended): for every nonempty password, score at least 75 yields
`"Strong"` with the green token, score in `[50, 75)` yields `"Medium"`
with the amber token, and score below 50 yields `"Weak"` with the red
token. -/
theorem C6_label_thresholds (p : String) (h : p ≠ "") :
    (75 ≤ (calculateStrength p).score →
      (calculateStrength p).label = "Strong" ∧
      (calculateStrength p).color = "#16a34a") ∧
    (50 ≤ (calculateStrength p).score ∧ (calculateStrength p).score < 75 →
      (calculateStrength p).label = "Medium" ∧
      (calculateStrength p).color = "#ca8a04") ∧
    ((calculateStrength p).score < 50 →
      (calculateStrength p).label = "Weak" ∧
      (calculateStrength p).color = "#dc2626") := by
  rw [calculateStrength_eq p (length_ne_zero_of_ne_empty p h)]
  split_ifs with h1 h2 <;> refine ⟨fun hh => ?_, fun hh => ?_, fun hh => ?_⟩ <;>
    simp_all <;> omega

theorem C6_label_thresholds_witness :
    ("Aa1!Aa1!Aa1!" : String) ≠ "" ∧
    ((75 ≤ (calculateStrength "Aa1!Aa1!Aa1!").score →
      (calculateStrength "Aa1!Aa1!Aa1!").label = "Strong" ∧
      (calculateStrength "Aa1!Aa1!Aa1!").color = "#16a34a") ∧
    (50 ≤ (calculateStrength "Aa1!Aa1!Aa1!").score ∧
        (calculateStrength "Aa1!Aa1!Aa1!").score < 75 →
      (calculateStrength "Aa1!Aa1!Aa1!").label = "Medium" ∧
      (calculateStrength "Aa1!Aa1!Aa1!").color = "#ca8a04") ∧
    ((calculateStrength "Aa1!Aa1!Aa1!").score < 50 →
      (calculateStrength "Aa1!Aa1!Aa1!").label = "Weak" ∧
      (calculateStrength "Aa1!Aa1!Aa1!").color = "#dc2626")) :=
  ⟨by decide, C6_label_thresholds "Aa1!Aa1!Aa1!" (by decide)⟩

/-- Every character satisfies one of the four variety tests: the fourth
test is by definition the complement of the other three. -/
lemma char_variety_total (c : Char) :
    isLowerChar c || isUpperChar c || isDigitChar c || isOtherChar c := by
  unfold isOtherChar
  cases isLowerChar c <;> cases isUpperChar c <;> cases isDigitChar c <;> rfl

/-- C9: every nonempty password scores at least 10, because its first
character already satisfies one of the four variety buckets. -/
theorem C9_nonempty_scores_at_least_ten (p : String) (h : p ≠ "") :
    10 ≤ (calculateStrength p).score := by
  have hl := length_ne_zero_of_ne_empty p h
  rw [calculateStrength_score_eq p hl]
  obtain ⟨c, cs, hp⟩ : ∃ c cs, p.data = c :: cs := by
    cases hd : p.data with
    | nil =>
      exact absurd (by simpa [String.length, hd] using rfl : p.length = 0) hl
    | cons c cs => exact ⟨c, cs, rfl⟩
  have hmem : c ∈ p.data := by rw [hp]; exact List.mem_cons_self c cs
  have hc := char_variety_total c
  unfold specScore
  rcases Bool.or_eq_true_iff.mp hc with hc3 | h4
  · rcases Bool.or_eq_true_iff.mp hc3 with hc2 | h3
    · rcases Bool.or_eq_true_iff.mp hc2 with h1 | h2
      · have ha : p.data.any isLowerChar = true :=
          List.any_eq_true.mpr ⟨c, hmem, h1⟩
        simp only [ha, if_true]
        split_ifs <;> omega
      · have ha : p.data.any isUpperChar = true :=
          List.any_eq_true.mpr ⟨c, hmem, h2⟩
        simp only [ha, if_true]
        split_ifs <;> omega
    · have ha : p.data.any isDigitChar = true :=
        List.any_eq_true.mpr ⟨c, hmem, h3⟩
      simp only [ha, if_true]
      split_ifs <;> omega
  · have ha : p.data.any isOtherChar = true :=
      List.any_eq_true.mpr ⟨c, hmem, h4⟩
    simp only [ha, if_true]
    split_ifs <;> omega

theorem C9_nonempty_scores_at_least_ten_witness :
    ("!" : String) ≠ "" ∧ 10 ≤ (calculateStrength "!").score :=
  ⟨by decide, C9_nonempty_scores_at_least_ten "!" (by decide)⟩

/-- Membership of a within-bounds `getD`. -/
lemma getD_mem (l : List Char) (n : Nat) (d : Char) (h : n < l.length) :
    l.getD n d ∈ l := by
  rw [List.getD_eq_getElem?_getD, List.getElem?_eq_getElem h]
  simpa using List.getElem_mem h

/-- Replacing position `k` by `a` while consing the displaced element on
the front permutes `a :: t`. -/
lemma cons_set_perm (t : List Char) (k : Nat) (a : Char) (hk : k < t.length) :
    (t.getD k ' ' :: t.set k a).Perm (a :: t) := by
  induction t generalizing k with
  | nil => simp at hk
  | cons b t ih =>
    cases k with
    | zero => simpa using List.Perm.swap a b t
    | succ m =>
      have hm : m < t.length := by simpa using hk
      simp only [List.getD_cons_succ, List.set_cons_succ]
      refine List.Perm.trans (List.Perm.swap b (t.getD m ' ') (t.set m a)) ?_
      refine List.Perm.trans ((ih m hm).cons b) ?_
      exact List.Perm.swap a b t

/-- The destructuring swap permutes the list when both indices are in
bounds. -/
lemma listSwap_perm (l : List Char) (i j : Nat) (hi : i < l.length)
    (hj : j < l.length) : (listSwap l i j).Perm l := by
  induction l generalizing i j with
  | nil => simp at hi
  | cons a t ih =>
    cases i with
    | zero =>
      cases j with
      | zero => simp [listSwap]
      | succ k =>
        have hk : k < t.length := by simpa using hj
        simpa [listSwap] using cons_set_perm t k a hk
    | succ m =>
      have hm : m < t.length := by simpa using hi
      cases j with
      | zero =>
        simpa [listSwap] using cons_set_perm t m a hm
      | succ k =>
        have hk : k < t.length := by simpa using hj
        simpa [listSwap] using (ih m k hm hk).cons a

lemma listSwap_length (l : List Char) (i j : Nat) :
    (listSwap l i j).length = l.length := by
  simp [listSwap]

/-- The Fisher-Yates loop permutes its input when started within
bounds. -/
lemma shuffleFrom_perm (i : Nat) : ∀ (l : List Char) (r : Rng),
    i < l.length → ((shuffleFrom i l r).1).Perm l := by
  induction i with
  | zero => intro l r _; exact List.Perm.refl l
  | succ i ih =>
    intro l r hi
    have hj : (r.next (i + 2)).1 < i + 2 := by
      unfold Rng.next getSecureRandomInt
      exact Nat.mod_lt _ (by omega)
    have hjl : (r.next (i + 2)).1 < l.length := by omega
    have hswap := listSwap_perm l (i + 1) (r.next (i + 2)).1 hi hjl
    have hlen : i < (listSwap l (i + 1) (r.next (i + 2)).1).length := by
      rw [listSwap_length]; omega
    exact (ih _ _ hlen).trans hswap

/-- `secureShuffleArray` permutes its input for every stream of random
draws. -/
lemma secureShuffleArray_perm (l : List Char) (r : Rng) :
    ((secureShuffleArray l r).1).Perm l := by
  unfold secureShuffleArray
  rcases Nat.eq_zero_or_pos l.length with h0 | hpos
  · have h1 : l.length - 1 = 0 := by omega
    rw [h1]
    exact List.Perm.refl l
  · exact shuffleFrom_perm (l.length - 1) l r (Nat.sub_lt hpos Nat.one_pos)

/-- C7: for every input sequence and every sequence of values the random
engine can draw, the shuffle returns a permutation of the input (the
same multiset of elements); the input itself is a value the function
never mutates, the result being built from a copy. -/
theorem C7_shuffle_is_permutation (l : List Char) (r : Rng) :
    ((secureShuffleArray l r).1).Perm l :=
  secureShuffleArray_perm l r

lemma addClass_pool (e : Bool) (cls : List Char)
    (st : List Char × List Char × Rng) :
    (addClass e cls st).1 = st.1 ++ if e then cls else [] := by
  unfold addClass
  cases e <;> simp

lemma addClass_req_length (e : Bool) (cls : List Char)
    (st : List Char × List Char × Rng) :
    (addClass e cls st).2.1.length = st.2.1.length + (if e then 1 else 0) := by
  unfold addClass
  cases e <;> simp

/-- A required character appended by a class block is drawn from that
class's pool. -/
lemma addClass_req_mem (e : Bool) (cls : List Char)
    (st : List Char × List Char × Rng) (hcls : cls ≠ []) (c : Char)
    (hc : c ∈ (addClass e cls st).2.1) :
    c ∈ st.2.1 ∨ (e = true ∧ c ∈ cls) := by
  cases e with
  | false => exact Or.inl hc
  | true =>
    have hj : (st.2.2.next cls.length).1 < cls.length := by
      unfold Rng.next getSecureRandomInt
      exact Nat.mod_lt _ (List.length_pos.mpr hcls)
    have hc2 : c ∈ st.2.1 ++ [cls.getD ((st.2.2.next cls.length).1) ' '] := hc
    rcases List.mem_append.mp hc2 with h | h
    · exact Or.inl h
    · rw [List.mem_singleton] at h
      subst h
      exact Or.inr ⟨rfl, getD_mem _ _ _ hj⟩

/-- An enabled class block always contributes one character of its own
pool to the required characters. -/
lemma addClass_cover (cls : List Char) (st : List Char × List Char × Rng)
    (hcls : cls ≠ []) :
    ∃ c ∈ (addClass true cls st).2.1, c ∈ cls := by
  have hj : (st.2.2.next cls.length).1 < cls.length := by
    unfold Rng.next getSecureRandomInt
    exact Nat.mod_lt _ (List.length_pos.mpr hcls)
  have hmem := getD_mem cls ((st.2.2.next cls.length).1) ' ' hj
  refine ⟨_, ?_, hmem⟩
  unfold addClass
  simp

/-- Later class blocks preserve any existing required character. -/
lemma addClass_cover_mono (e : Bool) (cls : List Char)
    (st : List Char × List Char × Rng) (P : Char → Prop)
    (hc : ∃ c ∈ st.2.1, P c) : ∃ c ∈ (addClass e cls st).2.1, P c := by
  obtain ⟨c, h1, h2⟩ := hc
  cases e with
  | false => exact ⟨c, h1, h2⟩
  | true =>
    refine ⟨c, ?_, h2⟩
    unfold addClass
    simp [h1]

/-- The combined pool built by the four class blocks is the union of the
enabled pools. -/
lemma buildPoolReq_pool (o : GenOptions) (r0 : Rng) :
    (buildPoolReq o r0).1 = unionPool o := by
  unfold buildPoolReq unionPool
  rw [addClass_pool, addClass_pool, addClass_pool, addClass_pool]
  simp

/-- One required character is drawn per enabled class. -/
lemma buildPoolReq_req_length (o : GenOptions) (r0 : Rng) :
    (buildPoolReq o r0).2.1.length = enabledCount o := by
  unfold buildPoolReq enabledCount
  rw [addClass_req_length, addClass_req_length, addClass_req_length,
    addClass_req_length]
  simp

/-- Every required character lies in the union of the enabled pools. -/
lemma buildPoolReq_req_subset (o : GenOptions) (r0 : Rng) (c : Char)
    (hc : c ∈ (buildPoolReq o r0).2.1) : c ∈ unionPool o := by
  unfold buildPoolReq at hc
  rcases addClass_req_mem _ _ _ (by decide) c hc with hc3 | ⟨hs, hms⟩
  · rcases addClass_req_mem _ _ _ (by decide) c hc3 with hc2 | ⟨hn, hmn⟩
    · rcases addClass_req_mem _ _ _ (by decide) c hc2 with hc1 | ⟨hl, hml⟩
      · rcases addClass_req_mem _ _ _ (by decide) c hc1 with hc0 | ⟨hu, hmu⟩
        · simp at hc0
        · unfold unionPool
          rw [hu]
          simp [hmu]
      · unfold unionPool
        rw [hl]
        simp [hml]
    · unfold unionPool
      rw [hn]
      simp [hmn]
  · unfold unionPool
    rw [hs]
    simp [hms]

lemma buildPoolReq_cover_upper (o : GenOptions) (r0 : Rng)
    (h : o.uppercase.getD true = true) :
    ∃ c ∈ (buildPoolReq o r0).2.1, c ∈ UPPERCASE.data := by
  unfold buildPoolReq
  apply addClass_cover_mono
  apply addClass_cover_mono
  apply addClass_cover_mono
  rw [h]
  exact addClass_cover UPPERCASE.data _ (by decide)

lemma buildPoolReq_cover_lower (o : GenOptions) (r0 : Rng)
    (h : o.lowercase.getD true = true) :
    ∃ c ∈ (buildPoolReq o r0).2.1, c ∈ LOWERCASE.data := by
  unfold buildPoolReq
  apply addClass_cover_mono
  apply addClass_cover_mono
  rw [h]
  exact addClass_cover LOWERCASE.data _ (by decide)

lemma buildPoolReq_cover_numbers (o : GenOptions) (r0 : Rng)
    (h : o.numbers.getD true = true) :
    ∃ c ∈ (buildPoolReq o r0).2.1, c ∈ NUMBERS.data := by
  unfold buildPoolReq
  apply addClass_cover_mono
  rw [h]
  exact addClass_cover NUMBERS.data _ (by decide)

lemma buildPoolReq_cover_symbols (o : GenOptions) (r0 : Rng)
    (h : o.symbols.getD true = true) :
    ∃ c ∈ (buildPoolReq o r0).2.1, c ∈ SYMBOLS.data := by
  unfold buildPoolReq
  rw [h]
  exact addClass_cover SYMBOLS.data _ (by decide)

lemma fillChars_length (pool : List Char) (n : Nat) (r : Rng) :
    (fillChars pool n r).1.length = n := by
  induction n generalizing r with
  | zero => rfl
  | succ n ih => simp [fillChars, ih]

lemma fillChars_subset (pool : List Char) (hpool : pool ≠ []) (n : Nat)
    (r : Rng) (c : Char) (hc : c ∈ (fillChars pool n r).1) : c ∈ pool := by
  induction n generalizing r with
  | zero => simp [fillChars] at hc
  | succ n ih =>
    simp only [fillChars, List.mem_cons] at hc
    rcases hc with h | h
    · subst h
      refine getD_mem _ _ _ ?_
      unfold Rng.next getSecureRandomInt
      exact Nat.mod_lt _ (List.length_pos.mpr hpool)
    · exact ih _ h

lemma enabledCount_le_unionPool_length (o : GenOptions) :
    enabledCount o ≤ (unionPool o).length := by
  unfold enabledCount unionPool
  split_ifs <;> decide

/-- Reduction of `generatePassword` in the nonempty-pool case. -/
lemma generatePassword_eq (o : GenOptions) (r0 : Rng)
    (h : (buildPoolReq o r0).1 ≠ []) :
    generatePassword o r0 = String.mk
      (secureShuffleArray
        ((buildPoolReq o r0).2.1 ++
          (fillChars (buildPoolReq o r0).1
            ((o.length.getD 14 - ((buildPoolReq o r0).2.1.length : Int)).toNat)
            (buildPoolReq o r0).2.2).1)
        (fillChars (buildPoolReq o r0).1
            ((o.length.getD 14 - ((buildPoolReq o r0).2.1.length : Int)).toNat)
            (buildPoolReq o r0).2.2).2).1 := by
  simp only [generatePassword]
  rw [if_neg]
  simp [h]

/-- The full specification of a successful `generatePassword` call:
exact requested length, all characters from the union pool, and one
witness character per enabled class. -/
lemma generate_spec (o : GenOptions) (r0 : Rng)
    (h1 : 1 ≤ enabledCount o)
    (h2 : (enabledCount o : Int) ≤ o.length.getD 14) :
    ((generatePassword o r0).data.length : Int) = o.length.getD 14 ∧
    (∀ c ∈ (generatePassword o r0).data, c ∈ unionPool o) ∧
    (o.uppercase.getD true = true →
      ∃ c ∈ (generatePassword o r0).data, c ∈ UPPERCASE.data) ∧
    (o.lowercase.getD true = true →
      ∃ c ∈ (generatePassword o r0).data, c ∈ LOWERCASE.data) ∧
    (o.numbers.getD true = true →
      ∃ c ∈ (generatePassword o r0).data, c ∈ NUMBERS.data) ∧
    (o.symbols.getD true = true →
      ∃ c ∈ (generatePassword o r0).data, c ∈ SYMBOLS.data) := by
  have hUn : unionPool o ≠ [] := by
    have hle := enabledCount_le_unionPool_length o
    intro hempty
    rw [hempty] at hle
    simp at hle
    omega
  have hbp : (buildPoolReq o r0).1 ≠ [] := by
    rw [buildPoolReq_pool]
    exact hUn
  rw [generatePassword_eq o r0 hbp]
  have hperm := secureShuffleArray_perm
    ((buildPoolReq o r0).2.1 ++
      (fillChars (buildPoolReq o r0).1
        ((o.length.getD 14 - ((buildPoolReq o r0).2.1.length : Int)).toNat)
        (buildPoolReq o r0).2.2).1)
    (fillChars (buildPoolReq o r0).1
        ((o.length.getD 14 - ((buildPoolReq o r0).2.1.length : Int)).toNat)
        (buildPoolReq o r0).2.2).2
  refine ⟨?_, ?_, ?_, ?_, ?_, ?_⟩
  · show (((secureShuffleArray _ _).1).length : Int) = _
    rw [hperm.length_eq, List.length_append, fillChars_length,
      buildPoolReq_req_length]
    omega
  · intro c hc
    have hc2 := hperm.mem_iff.mp hc
    rcases List.mem_append.mp hc2 with h | h
    · exact buildPoolReq_req_subset o r0 c h
    · rw [← buildPoolReq_pool o r0]
      exact fillChars_subset _ hbp _ _ c h
  · intro h
    obtain ⟨c, hcr, hcU⟩ := buildPoolReq_cover_upper o r0 h
    exact ⟨c, hperm.mem_iff.mpr (List.mem_append_left _ hcr), hcU⟩
  · intro h
    obtain ⟨c, hcr, hcU⟩ := buildPoolReq_cover_lower o r0 h
    exact ⟨c, hperm.mem_iff.mpr (List.mem_append_left _ hcr), hcU⟩
  · intro h
    obtain ⟨c, hcr, hcU⟩ := buildPoolReq_cover_numbers o r0 h
    exact ⟨c, hperm.mem_iff.mpr (List.mem_append_left _ hcr), hcU⟩
  · intro h
    obtain ⟨c, hcr, hcU⟩ := buildPoolReq_cover_symbols o r0 h
    exact ⟨c, hperm.mem_iff.mpr (List.mem_append_left _ hcr), hcU⟩

/-- When the requested length is below the number of enabled classes the
fill loop draws nothing and the output is a shuffle of the required
characters alone. -/
lemma generate_short_perm (o : GenOptions) (r : Rng)
    (h1 : 1 ≤ enabledCount o)
    (h2 : o.length.getD 14 < (enabledCount o : Int)) :
    (generatePassword o r).data.Perm (requiredChars o r) := by
  have hUn : unionPool o ≠ [] := by
    have hle := enabledCount_le_unionPool_length o
    intro hempty
    rw [hempty] at hle
    simp at hle
    omega
  have hbp : (buildPoolReq o r).1 ≠ [] := by
    rw [buildPoolReq_pool]
    exact hUn
  rw [generatePassword_eq o r hbp]
  have hn : ((o.length.getD 14 - ((buildPoolReq o r).2.1.length : Int)).toNat)
      = 0 := by
    rw [buildPoolReq_req_length]
    omega
  rw [hn]
  have hperm := secureShuffleArray_perm
    ((buildPoolReq o r).2.1 ++
      (fillChars (buildPoolReq o r).1 0 (buildPoolReq o r).2.2).1)
    (fillChars (buildPoolReq o r).1 0 (buildPoolReq o r).2.2).2
  simp only [fillChars, List.append_nil] at hperm
  show ((secureShuffleArray
      ((buildPoolReq o r).2.1 ++
        (fillChars (buildPoolReq o r).1 0 (buildPoolReq o r).2.2).1)
      (fillChars (buildPoolReq o r).1 0 (buildPoolReq o r).2.2).2).1).Perm
    (requiredChars o r)
  simp only [fillChars, List.append_nil]
  exact hperm

/-- C1: for every configuration with at least one enabled class and a
requested length at least the number of enabled classes, the generated
password has exactly the requested length, draws every character from
the union of the enabled pools, and contains at least one character of
every enabled class. -/
theorem C1_generate_exact_length_and_coverage (o : GenOptions) (r : Rng)
    (h1 : 1 ≤ enabledCount o)
    (h2 : (enabledCount o : Int) ≤ o.length.getD 14) :
    ((generatePassword o r).data.length : Int) = o.length.getD 14 ∧
    (∀ c ∈ (generatePassword o r).data, c ∈ unionPool o) ∧
    (o.uppercase.getD true = true →
      ∃ c ∈ (generatePassword o r).data, c ∈ UPPERCASE.data) ∧
    (o.lowercase.getD true = true →
      ∃ c ∈ (generatePassword o r).data, c ∈ LOWERCASE.data) ∧
    (o.numbers.getD true = true →
      ∃ c ∈ (generatePassword o r).data, c ∈ NUMBERS.data) ∧
    (o.symbols.getD true = true →
      ∃ c ∈ (generatePassword o r).data, c ∈ SYMBOLS.data) :=
  generate_spec o r h1 h2

/-- Witness stream: the source always draws zero. -/
def zeroRng : Rng := ⟨fun _ => 0, 0⟩

/-- Witness configuration: all classes enabled, requested length 4. -/
def optsAll4 : GenOptions := ⟨some 4, some true, some true, some true, some true⟩

theorem C1_generate_exact_length_and_coverage_witness :
    1 ≤ enabledCount optsAll4 ∧
    ((enabledCount optsAll4 : Int) ≤ optsAll4.length.getD 14) ∧
    (((generatePassword optsAll4 zeroRng).data.length : Int)
        = optsAll4.length.getD 14 ∧
    (∀ c ∈ (generatePassword optsAll4 zeroRng).data, c ∈ unionPool optsAll4) ∧
    (optsAll4.uppercase.getD true = true →
      ∃ c ∈ (generatePassword optsAll4 zeroRng).data, c ∈ UPPERCASE.data) ∧
    (optsAll4.lowercase.getD true = true →
      ∃ c ∈ (generatePassword optsAll4 zeroRng).data, c ∈ LOWERCASE.data) ∧
    (optsAll4.numbers.getD true = true →
      ∃ c ∈ (generatePassword optsAll4 zeroRng).data, c ∈ NUMBERS.data) ∧
    (optsAll4.symbols.getD true = true →
      ∃ c ∈ (generatePassword optsAll4 zeroRng).data, c ∈ SYMBOLS.data)) :=
  ⟨by decide, by decide,
    C1_generate_exact_length_and_coverage optsAll4 zeroRng (by decide) (by decide)⟩

/-- C2: when all four character-class booleans are false the combined
pool is empty and `generatePassword` returns the empty string, whatever
the requested length and the random draws. -/
theorem C2_all_disabled_returns_empty (o : GenOptions) (r : Rng)
    (hu : o.uppercase.getD true = false) (hl : o.lowercase.getD true = false)
    (hn : o.numbers.getD true = false) (hs : o.symbols.getD true = false) :
    generatePassword o r = "" := by
  have hp : (buildPoolReq o r).1 = [] := by
    rw [buildPoolReq_pool]
    unfold unionPool
    rw [hu, hl, hn, hs]
    simp
  simp only [generatePassword]
  rw [if_pos]
  rw [hp]
  rfl

/-- Witness configuration: all classes disabled, length left to default. -/
def optsDisabled : GenOptions :=
  ⟨none, some false, some false, some false, some false⟩

theorem C2_all_disabled_returns_empty_witness :
    optsDisabled.uppercase.getD true = false ∧
    optsDisabled.lowercase.getD true = false ∧
    optsDisabled.numbers.getD true = false ∧
    optsDisabled.symbols.getD true = false ∧
    generatePassword optsDisabled zeroRng = "" :=
  ⟨rfl, rfl, rfl, rfl,
    C2_all_disabled_returns_empty optsDisabled zeroRng rfl rfl rfl rfl⟩

/-- C3: with at least one enabled class and a requested length below the
number of enabled classes, the output has length exactly the number of
enabled classes and consists exactly of the required characters, one
drawn from each enabled class. -/
theorem C3_short_requested_length (o : GenOptions) (r : Rng)
    (h1 : 1 ≤ enabledCount o)
    (h2 : o.length.getD 14 < (enabledCount o : Int)) :
    (generatePassword o r).data.length = enabledCount o ∧
    (generatePassword o r).data.Perm (requiredChars o r) ∧
    (o.uppercase.getD true = true →
      ∃ c ∈ (generatePassword o r).data, c ∈ UPPERCASE.data) ∧
    (o.lowercase.getD true = true →
      ∃ c ∈ (generatePassword o r).data, c ∈ LOWERCASE.data) ∧
    (o.numbers.getD true = true →
      ∃ c ∈ (generatePassword o r).data, c ∈ NUMBERS.data) ∧
    (o.symbols.getD true = true →
      ∃ c ∈ (generatePassword o r).data, c ∈ SYMBOLS.data) := by
  have hperm := generate_short_perm o r h1 h2
  refine ⟨?_, hperm, ?_, ?_, ?_, ?_⟩
  · rw [hperm.length_eq]
    exact buildPoolReq_req_length o r
  · intro h
    obtain ⟨c, hcr, hcU⟩ := buildPoolReq_cover_upper o r h
    exact ⟨c, hperm.mem_iff.mpr hcr, hcU⟩
  · intro h
    obtain ⟨c, hcr, hcU⟩ := buildPoolReq_cover_lower o r h
    exact ⟨c, hperm.mem_iff.mpr hcr, hcU⟩
  · intro h
    obtain ⟨c, hcr, hcU⟩ := buildPoolReq_cover_numbers o r h
    exact ⟨c, hperm.mem_iff.mpr hcr, hcU⟩
  · intro h
    obtain ⟨c, hcr, hcU⟩ := buildPoolReq_cover_symbols o r h
    exact ⟨c, hperm.mem_iff.mpr hcr, hcU⟩

/-- Witness configuration: all classes enabled, requested length 2. -/
def optsLen2 : GenOptions := ⟨some 2, some true, some true, some true, some true⟩

theorem C3_short_requested_length_witness :
    1 ≤ enabledCount optsLen2 ∧
    (optsLen2.length.getD 14 < (enabledCount optsLen2 : Int)) ∧
    ((generatePassword optsLen2 zeroRng).data.length = enabledCount optsLen2 ∧
    (generatePassword optsLen2 zeroRng).data.Perm (requiredChars optsLen2 zeroRng) ∧
    (optsLen2.uppercase.getD true = true →
      ∃ c ∈ (generatePassword optsLen2 zeroRng).data, c ∈ UPPERCASE.data) ∧
    (optsLen2.lowercase.getD true = true →
      ∃ c ∈ (generatePassword optsLen2 zeroRng).data, c ∈ LOWERCASE.data) ∧
    (optsLen2.numbers.getD true = true →
      ∃ c ∈ (generatePassword optsLen2 zeroRng).data, c ∈ NUMBERS.data) ∧
    (optsLen2.symbols.getD true = true →
      ∃ c ∈ (generatePassword optsLen2 zeroRng).data, c ∈ SYMBOLS.data)) :=
  ⟨by decide, by decide,
    C3_short_requested_length optsLen2 zeroRng (by decide) (by decide)⟩

/-- C10: an empty configuration object defaults to length 14 with all
four classes enabled, so the generated password has 14 characters and
contains at least one character of each class. -/
theorem C10_empty_options_defaults (r : Rng) :
    (generatePassword ⟨none, none, none, none, none⟩ r).data.length = 14 ∧
    (∃ c ∈ (generatePassword ⟨none, none, none, none, none⟩ r).data,
      c ∈ UPPERCASE.data) ∧
    (∃ c ∈ (generatePassword ⟨none, none, none, none, none⟩ r).data,
      c ∈ LOWERCASE.data) ∧
    (∃ c ∈ (generatePassword ⟨none, none, none, none, none⟩ r).data,
      c ∈ NUMBERS.data) ∧
    (∃ c ∈ (generatePassword ⟨none, none, none, none, none⟩ r).data,
      c ∈ SYMBOLS.data) := by
  obtain ⟨hlen, hsub, hu, hl, hn, hs⟩ :=
    generate_spec ⟨none, none, none, none, none⟩ r (by decide) (by decide)
  refine ⟨?_, hu rfl, hl rfl, hn rfl, hs rfl⟩
  have h14 : ((⟨none, none, none, none, none⟩ : GenOptions).length.getD 14)
      = (14 : Int) := rfl
  rw [h14] at hlen
  exact_mod_cast hlen

end PasswordGen
